import Mathlib

/-!
# Event watcher: admission filter and enrichment

A shallow embedding of `pkg/kube/watcher.go`.  Go values are Lean values, the
package-level and collaborator state the watcher touches (boot instant,
metrics counters, log output, handler invocations, metadata lookups) is
passed explicitly as a `World`.
-/

namespace Kube

/-! ## Go `time` -/

/-! A `time.Duration` is a signed 64-bit count of nanoseconds; it is an `Int`
here, between `minDuration` and `maxDuration`. -/

/-- The smallest `time.Duration`, `-1 << 63`. -/
def minDuration : Int := -9223372036854775808

/-- The largest `time.Duration`, `1<<63 - 1`. -/
def maxDuration : Int := 9223372036854775807

/-- The constant `time.Second`, in nanoseconds. -/
def Second : Int := 1000000000

/-- A `time.Time` instant, as nanoseconds since the zero time
(January 1, year 1, 00:00:00 UTC).  Timestamps read from the API carry no
monotonic reading, so comparison and subtraction are on the instant. -/
structure Time where
  ns : Int
deriving DecidableEq, Repr

/-- The zero value of `time.Time`, which an unset timestamp field holds. -/
def Time.zero : Time := ⟨0⟩

/-- Go `t.After(u)`: whether the instant `t` is after `u`. -/
def Time.After (t u : Time) : Bool := decide (u.ns < t.ns)

/-- Go `t.Sub(u)`: the duration `t-u`, and the minimum (maximum) duration when
the difference is below (above) what a `Duration` can hold. -/
def Time.Sub (t u : Time) : Int :=
  let d := t.ns - u.ns
  if d < minDuration then minDuration
  else if maxDuration < d then maxDuration
  else d

/-- Go `t.Add(d)`. -/
def Time.Add (t : Time) (d : Int) : Time := ⟨t.ns + d⟩

/-- A `clock.PassiveClock`: a source of the current time.  Both `RealClock`
and the testing `FakePassiveClock` answer `Since(ts)` with `Now().Sub(ts)`. -/
structure PassiveClock where
  Now : Time
deriving DecidableEq, Repr

/-- The `Since` method of a `clock.PassiveClock`. -/
def PassiveClock.Since (c : PassiveClock) (ts : Time) : Int := c.Now.Sub ts

/-- The `clock.RealClock` at the moment it reads the instant `now`. -/
def RealClock (now : Time) : PassiveClock := ⟨now⟩

/-! ## Kubernetes objects -/

/-- A `corev1.ObjectReference`. -/
structure ObjectReference where
  Kind : String := ""
  Namespace : String := ""
  Name : String := ""
  UID : String := ""
  APIVersion : String := ""
  ResourceVersion : String := ""
  FieldPath : String := ""
deriving DecidableEq, Repr

/-- A `metav1.OwnerReference`. -/
structure OwnerReference where
  APIVersion : String := ""
  Kind : String := ""
  Name : String := ""
  UID : String := ""
  Controller : Option Bool := none
  BlockOwnerDeletion : Option Bool := none
deriving DecidableEq, Repr

/-- A `metav1.ManagedFieldsEntry`. -/
structure ManagedFieldsEntry where
  Manager : String := ""
  Operation : String := ""
  APIVersion : String := ""
  Time : Option Time := none
  FieldsType : String := ""
  Subresource : String := ""
deriving DecidableEq, Repr

/-- A `corev1.EventSource`. -/
structure EventSource where
  Component : String := ""
  Host : String := ""
deriving DecidableEq, Repr

/-- A `metav1.ObjectMeta`.  A nil map or slice is `none`. -/
structure ObjectMeta where
  Name : String := ""
  GenerateName : String := ""
  Namespace : String := ""
  UID : String := ""
  ResourceVersion : String := ""
  CreationTimestamp : Time := Time.zero
  Labels : Option (List (String × String)) := none
  Annotations : Option (List (String × String)) := none
  OwnerReferences : Option (List OwnerReference) := none
  ManagedFields : Option (List ManagedFieldsEntry) := none
deriving DecidableEq, Repr

/-- A `corev1.Event`; the embedded `ObjectMeta` gives `event.Name`,
`event.Namespace`, `event.CreationTimestamp` and `event.ManagedFields`. -/
structure Event extends ObjectMeta where
  InvolvedObject : ObjectReference := {}
  Reason : String := ""
  Message : String := ""
  Source : EventSource := {}
  FirstTimestamp : Time := Time.zero
  LastTimestamp : Time := Time.zero
  Count : Int := 0
  Type_ : String := ""
  EventTime : Time := Time.zero
  Action : String := ""
  ReportingController : String := ""
  ReportingInstance : String := ""
deriving DecidableEq, Repr

/-- The generated `DeepCopy` of an `ObjectReference`: a fresh value equal to
the receiver. -/
def ObjectReference.DeepCopy (r : ObjectReference) : ObjectReference := r

/-- The generated `DeepCopy` of an `Event`: a fresh value equal to the
receiver. -/
def Event.DeepCopy (event : Event) : Event := event

/-- Modelled from the spec: the declaration of `ObjectMetadata` is outside the
sources; its fields are those `onEvent` reads and the test fixture sets
(labels, annotations, owner references, deleted flag). -/
structure ObjectMetadata where
  Annotations : Option (List (String × String)) := none
  Labels : Option (List (String × String)) := none
  OwnerReferences : Option (List OwnerReference) := none
  Deleted : Bool := false
deriving DecidableEq, Repr

/-- Modelled from the spec: the declaration of `EnhancedObjectReference` is
outside the sources; it embeds the `ObjectReference` and adds the fields
`onEvent` assigns. -/
structure EnhancedObjectReference extends ObjectReference where
  Labels : Option (List (String × String)) := none
  Annotations : Option (List (String × String)) := none
  OwnerReferences : Option (List OwnerReference) := none
  Deleted : Bool := false
deriving DecidableEq, Repr

/-- Modelled from the spec: the declaration of `EnhancedEvent` is outside the
sources; it embeds the `Event` and has an `InvolvedObject` of its own, which
`onEvent` fills. -/
structure EnhancedEvent where
  Event : Event := {}
  InvolvedObject : EnhancedObjectReference := {}
deriving DecidableEq, Repr

/-- A Go `error` returned by a metadata lookup; `IsNotFound` is what
`errors.IsNotFound` answers for it. -/
structure LookupError where
  IsNotFound : Bool
  Message : String := ""
deriving DecidableEq, Repr

/-! ## Collaborators: logger, metrics, handler, metadata provider -/

/-- The zerolog levels the watcher writes at. -/
inductive Level where
  | debug
  | warn
  | error
deriving DecidableEq, Repr

/-- A value attached to a log entry: a string, the `String()` rendering of a
duration or of a time, or an error. -/
inductive LogValue where
  | str (s : String)
  | duration (d : Int)
  | time (t : Time)
  | err (e : LookupError)
deriving DecidableEq, Repr

/-- One entry written to the logger: level, fields in the order they were
added, the message format and its arguments. -/
structure LogEntry where
  level : Level
  fields : List (String × LogValue)
  msg : String
  msgArgs : List LogValue := []
deriving DecidableEq, Repr

/-- The counters of `metrics.Store` the watcher increments. -/
structure MetricsStore where
  EventsProcessed : Nat := 0
  EventsDiscarded : Nat := 0
  WatchErrors : Nat := 0
deriving DecidableEq, Repr

/-- An `ObjectMetadataProvider`: `GetObjectMetadata` on the provider state `σ`
returns the metadata, the error (`none` for nil) and the next state. -/
abbrev ObjectMetadataProvider (σ : Type) :=
  σ → ObjectReference → (ObjectMetadata × Option LookupError) × σ

/-- Everything outside the watcher that one notification reads or writes:
the package variable `startUpTime`, the metrics store, the log output, the
invocations of the handler `fn` (oldest first), the references passed to
`GetObjectMetadata` (oldest first) and the state of the metadata provider. -/
structure World (σ : Type) where
  startUpTime : Time
  metricsStore : MetricsStore := {}
  log : List LogEntry := []
  handled : List EnhancedEvent := []
  lookups : List ObjectReference := []
  cache : σ

/-- The fields of `EventWatcher` the notification path reads. -/
structure EventWatcher (σ : Type) where
  objectMetadataCache : ObjectMetadataProvider σ
  omitLookup : Bool := false
  maxEventAgeSeconds : Int

/-- The method `setStartUpTime`. -/
def setStartUpTime {σ : Type} (w : World σ) (time : Time) : World σ :=
  { w with startUpTime := time }

/-! ## The admission filter -/

/-- The function `getEventAge`: the age of the event and the time used for the
age calculation. -/
def getEventAge (event : Event) (clock : PassiveClock) : Int × Time :=
  let timeUsedForAgeCalculation :=
    if event.CreationTimestamp.After event.LastTimestamp then
      event.CreationTimestamp
    else
      event.LastTimestamp
  (clock.Since timeUsedForAgeCalculation, timeUsedForAgeCalculation)

/-- The warning entry `isEventDiscarded` writes for a discarded event. -/
def discardedLogEntry (maxEventAgeSeconds : Int) (event : Event)
    (eventAge : Int) : LogEntry :=
  { level := Level.warn
    fields :=
      [ ("eventAge", LogValue.duration eventAge),
        ("eventNamespace", LogValue.str event.Namespace),
        ("eventName", LogValue.str event.Name),
        ("eventMessage", LogValue.str event.Message),
        ("eventReason", LogValue.str event.Reason),
        ("eventSourceComponent", LogValue.str event.Source.Component),
        ("eventSourceHost", LogValue.str event.Source.Host),
        ("eventFirstTimestamp", LogValue.time event.FirstTimestamp),
        ("eventLastTimestamp", LogValue.time event.LastTimestamp),
        ("eventCreationTime", LogValue.time event.CreationTimestamp),
        ("eventEventTime", LogValue.time event.EventTime),
        ("involvedObjectAPIVersion", LogValue.str event.InvolvedObject.APIVersion),
        ("involvedObjectKind", LogValue.str event.InvolvedObject.Kind),
        ("involvedObjectNamespace", LogValue.str event.InvolvedObject.Namespace),
        ("involvedObjectName", LogValue.str event.InvolvedObject.Name),
        ("involvedObjectUID", LogValue.str event.InvolvedObject.UID) ]
    msg := "Event discarded as being older than maxEventAgeSeconds: %v"
    msgArgs := [LogValue.duration maxEventAgeSeconds] }

/-- The method `isEventDiscarded`, with the real clock reading `now`: the
decision and the world after the call. -/
def isEventDiscarded {σ : Type} (e : EventWatcher σ) (event : Event) (now : Time)
    (w : World σ) : Bool × World σ :=
  let age := getEventAge event (RealClock now)
  let eventAge := age.1
  let timeUsedForAge := age.2
  if eventAge > e.maxEventAgeSeconds then
    if timeUsedForAge.After w.startUpTime then
      (true,
        { w with
          log := w.log ++ [discardedLogEntry e.maxEventAgeSeconds event eventAge]
          metricsStore :=
            { w.metricsStore with EventsDiscarded := w.metricsStore.EventsDiscarded + 1 } })
    else
      (true, w)
  else
    (false, w)

/-! ## Enrichment and forwarding -/

/-- The debug entry `onEvent` writes for an admitted event. -/
def receivedLogEntry (event : Event) : LogEntry :=
  { level := Level.debug
    fields :=
      [ ("msg", LogValue.str event.Message),
        ("namespace", LogValue.str event.Namespace),
        ("reason", LogValue.str event.Reason),
        ("involvedObject", LogValue.str event.InvolvedObject.Name) ]
    msg := "Received event" }

/-- The error entry `onEvent` writes when the lookup fails. -/
def lookupErrorLogEntry (err : LookupError) : LogEntry :=
  { level := Level.error
    fields := [("error", LogValue.err err)]
    msg := if err.IsNotFound then "Object not found, likely deleted"
           else "Failed to get object metadata" }

/-- The call `e.fn(ev)`: one more invocation of the handler. -/
def callHandler {σ : Type} (w : World σ) (ev : EnhancedEvent) : World σ :=
  { w with handled := w.handled ++ [ev] }

/-- The method `onEvent`, with the real clock reading `now`. -/
def onEvent {σ : Type} (e : EventWatcher σ) (event : Event) (now : Time)
    (w : World σ) : World σ :=
  let d := isEventDiscarded e event now w
  if d.1 then d.2
  else
    let w1 : World σ := { d.2 with log := d.2.log ++ [receivedLogEntry event] }
    let w2 : World σ :=
      { w1 with
        metricsStore :=
          { w1.metricsStore with EventsProcessed := w1.metricsStore.EventsProcessed + 1 } }
    let ev0 : EnhancedEvent := { Event := event.DeepCopy }
    let ev : EnhancedEvent := { ev0 with Event := { ev0.Event with ManagedFields := none } }
    if e.omitLookup then
      callHandler w2
        { ev with InvolvedObject :=
            { ev.InvolvedObject with toObjectReference := event.InvolvedObject.DeepCopy } }
    else
      let r := e.objectMetadataCache w2.cache event.InvolvedObject
      let objectMetadata := r.1.1
      let w3 : World σ :=
        { w2 with lookups := w2.lookups ++ [event.InvolvedObject], cache := r.2 }
      match r.1.2 with
      | some err =>
        let ev1 : EnhancedEvent :=
          if err.IsNotFound then
            { ev with InvolvedObject := { ev.InvolvedObject with Deleted := true } }
          else ev
        let w4 : World σ := { w3 with log := w3.log ++ [lookupErrorLogEntry err] }
        callHandler w4
          { ev1 with InvolvedObject :=
              { ev1.InvolvedObject with toObjectReference := event.InvolvedObject.DeepCopy } }
      | none =>
        let ev1 : EnhancedEvent :=
          { ev with InvolvedObject := { ev.InvolvedObject with Labels := objectMetadata.Labels } }
        let ev2 : EnhancedEvent :=
          { ev1 with InvolvedObject :=
              { ev1.InvolvedObject with Annotations := objectMetadata.Annotations } }
        let ev3 : EnhancedEvent :=
          { ev2 with InvolvedObject :=
              { ev2.InvolvedObject with OwnerReferences := objectMetadata.OwnerReferences } }
        let ev4 : EnhancedEvent :=
          { ev3 with InvolvedObject :=
              { ev3.InvolvedObject with toObjectReference := event.InvolvedObject.DeepCopy } }
        let ev5 : EnhancedEvent :=
          { ev4 with InvolvedObject :=
              { ev4.InvolvedObject with Deleted := objectMetadata.Deleted } }
        callHandler w3 ev5

/-- The methods `OnAdd` and `OnUpdate` both hand the (new) event to `onEvent`. -/
def OnAdd {σ : Type} (e : EventWatcher σ) (obj : Event) (now : Time) (w : World σ) : World σ :=
  onEvent e obj now w

/-- The method `OnUpdate`. -/
def OnUpdate {σ : Type} (e : EventWatcher σ) (_oldObj newObj : Event) (now : Time)
    (w : World σ) : World σ :=
  onEvent e newObj now w

/-- The method `OnDelete`, which ignores deletes. -/
def OnDelete {σ : Type} (_e : EventWatcher σ) (_obj : Event) (w : World σ) : World σ := w

/-! ## Construction -/

/-- Go conversion of an integer to `int64`: the value modulo `2^64`, taken in
`[-2^63, 2^63)`. -/
def wrapInt64 (x : Int) : Int :=
  (x + 9223372036854775808) % 18446744073709551616 - 9223372036854775808

/-- The function `NewEventWatcher`, for the fields the notification path
reads; the metadata provider it builds from `cacheSize` is taken as given. -/
def NewEventWatcher {σ : Type} (objectMetadataCache : ObjectMetadataProvider σ)
    (MaxEventAgeSeconds : Int) (omitLookup : Bool) : EventWatcher σ :=
  { objectMetadataCache := objectMetadataCache
    omitLookup := omitLookup
    maxEventAgeSeconds := wrapInt64 (Second * MaxEventAgeSeconds) }

/-! ## The metadata cache -/

/-- Modelled from the spec: the identity of an involved object, the tuple
(API version, kind, namespace, name, UID) that keys the metadata cache; its
declaration is outside the sources. -/
structure ObjectIdentity where
  APIVersion : String := ""
  Kind : String := ""
  Namespace : String := ""
  Name : String := ""
  UID : String := ""
deriving DecidableEq, Repr

/-- Modelled from the spec: the identity an object reference stands for. -/
def identityOf (reference : ObjectReference) : ObjectIdentity :=
  { APIVersion := reference.APIVersion
    Kind := reference.Kind
    Namespace := reference.Namespace
    Name := reference.Name
    UID := reference.UID }

/-- Modelled from the spec: the object lookup collaborator, which answers a
reference with the metadata of the object or with an error that tells "not
found" from other failures. -/
abbrev Lookup := ObjectReference → Except LookupError ObjectMetadata

/-- Modelled from the spec: the bounded metadata cache behind
`NewObjectMetadataProvider`, whose source is outside the sources: the
capacity fixed at construction, the entries from the most recently accessed
to the least recently accessed, and the external lookups performed so far
(oldest first). -/
structure MetadataCache where
  capacity : Nat
  entries : List (ObjectIdentity × ObjectMetadata) := []
  calls : List ObjectReference := []
deriving DecidableEq, Repr

/-- Modelled from the spec: the constructor `NewObjectMetadataProvider`, which
is outside the sources: an empty cache of the given capacity. -/
def NewObjectMetadataProvider (cacheSize : Nat) : MetadataCache :=
  { capacity := cacheSize }

/-- The identities a cache holds, most recently accessed first. -/
def MetadataCache.keys (c : MetadataCache) : List ObjectIdentity :=
  c.entries.map Prod.fst

/-- Modelled from the spec: storing a result in the cache, which is outside
the sources: the entry becomes the most recently accessed, and when the cache
then exceeds its capacity the least recently accessed entry is evicted. -/
def MetadataCache.store (c : MetadataCache) (k : ObjectIdentity) (m : ObjectMetadata) :
    MetadataCache :=
  let entries := (k, m) :: c.entries
  { c with entries := if c.capacity < entries.length then entries.dropLast else entries }

/-- Modelled from the spec: `GetObjectMetadata` of the metadata cache, which
is outside the sources.  A hit returns the cached entry with no outbound call
and makes it the most recently accessed; a miss performs the external lookup,
stores a found result or, for "not found", a `deleted = true` result, and
returns it; any other failure is returned as an error and not cached. -/
def GetObjectMetadata (lookup : Lookup) : ObjectMetadataProvider MetadataCache :=
  fun c reference =>
    let k := identityOf reference
    match c.entries.find? (fun entry => decide (entry.1 = k)) with
    | some hit =>
      ((hit.2, none),
        { c with entries := hit :: c.entries.filter (fun entry => decide (entry.1 ≠ k)) })
    | none =>
      let c1 : MetadataCache := { c with calls := c.calls ++ [reference] }
      match lookup reference with
      | Except.ok m => ((m, none), c1.store k m)
      | Except.error err =>
        if err.IsNotFound then (({ Deleted := true }, none), c1.store k { Deleted := true })
        else (({}, some err), c1)

/-- The cache after `GetObjectMetadata` was called for each reference in turn. -/
def getAll (lookup : Lookup) (c : MetadataCache) (references : List ObjectReference) :
    MetadataCache :=
  references.foldl (fun cache reference => (GetObjectMetadata lookup cache reference).2) c

/-- A lookup collaborator that finds every object and reports its name as a
label. -/
def sampleLookup : Lookup :=
  fun reference => Except.ok { Labels := some [("name", reference.Name)] }

/-- Three references to distinct objects. -/
def refA : ObjectReference := { Kind := "Pod", Namespace := "default", Name := "a", UID := "1" }

/-- The second sample reference. -/
def refB : ObjectReference := { Kind := "Pod", Namespace := "default", Name := "b", UID := "2" }

/-- The third sample reference. -/
def refC : ObjectReference := { Kind := "Pod", Namespace := "default", Name := "c", UID := "3" }

/-! ## Specification-side notions and sample inputs -/

/-- The effective time of an event as the specification words it: the later of
`creationTimestamp` and `lastTimestamp`. -/
def effectiveTime (event : Event) : Time :=
  ⟨max event.CreationTimestamp.ns event.LastTimestamp.ns⟩

/-- The enhanced event the specification describes for a raw event and the
metadata of its involved object: the event without its managed fields, the
raw reference, and the labels, annotations, owner references and deleted flag
of the metadata. -/
def enrichedEvent (event : Event) (m : ObjectMetadata) : EnhancedEvent :=
  { Event := { event with ManagedFields := none }
    InvolvedObject :=
      { toObjectReference := event.InvolvedObject
        Labels := m.Labels
        Annotations := m.Annotations
        OwnerReferences := m.OwnerReferences
        Deleted := m.Deleted } }

/-- The world after an admitted event was logged and counted, before the
handler is called. -/
def receivedWorld {σ : Type} (event : Event) (w : World σ) : World σ :=
  { w with
    log := w.log ++ [receivedLogEntry event]
    metricsStore :=
      { w.metricsStore with EventsProcessed := w.metricsStore.EventsProcessed + 1 } }

/-- The instant 2024-01-02 03:04:05.000000006 UTC of `TestGetEventAge`. -/
def testTime : Time := ⟨63839761445000000006⟩

/-- The boot instant of the tests: ten minutes before `testTime`. -/
def testStartup : Time := testTime.Add (-600 * Second)

/-- The metadata the mock provider of the tests holds. -/
def testMetadata : ObjectMetadata :=
  { Annotations := some [("test", "test")]
    Labels := some [("test", "test")]
    OwnerReferences :=
      some [{ APIVersion := "testAPI", Kind := "testKind", Name := "testOwner", UID := "testOwner" }] }

/-- The test double `mockObjectMetadataProvider`; its state is the flag
`objDeleted`. -/
def mockObjectMetadataProvider : ObjectMetadataProvider Bool :=
  fun objDeleted _reference =>
    if objDeleted then (({}, some { IsNotFound := true }), objDeleted)
    else ((testMetadata, none), objDeleted)

/-- The test helper `newMockEventWatcher`. -/
def newMockEventWatcher (MaxEventAgeSeconds : Int) : EventWatcher Bool :=
  { objectMetadataCache := mockObjectMetadataProvider
    maxEventAgeSeconds := wrapInt64 (Second * MaxEventAgeSeconds) }

/-- The world of the tests: boot ten minutes ago, nothing logged or counted,
the mock provider with `objDeleted = false`. -/
def testWorld : World Bool := { startUpTime := testStartup, cache := false }

/-- An event last seen three minutes before boot. -/
def backlogEvent : Event := { LastTimestamp := testStartup.Add (-180 * Second) }

/-- An event created three minutes after boot, seven minutes old. -/
def liveStaleEvent : Event :=
  { Name := "event1", CreationTimestamp := testStartup.Add (180 * Second) }

/-- An event created eight minutes after boot, two minutes old. -/
def freshEvent : Event :=
  { Name := "event1", CreationTimestamp := testStartup.Add (480 * Second)
    InvolvedObject := { UID := "test", Name := "test-1" } }

/-- An event carrying only an `eventTime`, two minutes old. -/
def eventTimeOnlyEvent : Event := { EventTime := testStartup.Add (480 * Second) }

/-- An event stamped one second after `testTime`. -/
def futureEvent : Event := { LastTimestamp := testTime.Add Second }

/-- The smallest `MaxEventAgeSeconds` for which `time.Second * v` leaves the
range of an `int64`. -/
def overflowingMaxAge : Int := 9223372037

/-- An event stamped exactly at `testTime`: its age is zero there. -/
def currentEvent : Event := { LastTimestamp := testTime }

/-- A fresh event that still carries managed-fields entries from the server. -/
def managedEvent : Event :=
  { freshEvent with
    ManagedFields := some [{ Manager := "kubelet", Operation := "Update", APIVersion := "v1" }] }

end Kube

/-!
# Managed machine pool types

A shallow embedding of `exp/api/v1beta1/types.go`.  A nil slice or pointer is
`none`; a Go string is a Lean `String`, read character by character.
-/

namespace V1beta1

/-- The type `Taint`; a `TaintEffect` is a string. -/
structure Taint where
  Effect : String := ""
  Key : String := ""
  Value : String := ""
deriving DecidableEq, Repr

/-- The enumeration `containerpb.NodeTaint_Effect` of the GCP SDK. -/
inductive NodeTaint_Effect where
  | EFFECT_UNSPECIFIED
  | NO_SCHEDULE
  | PREFER_NO_SCHEDULE
  | NO_EXECUTE
deriving DecidableEq, Repr

/-- The message `containerpb.NodeTaint` of the GCP SDK. -/
structure NodeTaint where
  Key : String := ""
  Value : String := ""
  Effect : NodeTaint_Effect := NodeTaint_Effect.EFFECT_UNSPECIFIED
deriving DecidableEq, Repr

/-- The function `convertToSdkTaintEffect`. -/
def convertToSdkTaintEffect (effect : String) : NodeTaint_Effect :=
  if effect = "NoSchedule" then NodeTaint_Effect.NO_SCHEDULE
  else if effect = "NoExecute" then NodeTaint_Effect.NO_EXECUTE
  else if effect = "PreferNoSchedule" then NodeTaint_Effect.PREFER_NO_SCHEDULE
  else NodeTaint_Effect.EFFECT_UNSPECIFIED

/-- The function `ConvertToSdkTaint`: nil for nil, and otherwise the slice
built by appending the converted taints one by one to an empty slice. -/
def ConvertToSdkTaint (taints : Option (List Taint)) : Option (List NodeTaint) :=
  match taints with
  | none => none
  | some ts =>
    some (ts.foldl
      (fun res taint =>
        res ++ [{ Key := taint.Key
                  Value := taint.Value
                  Effect := convertToSdkTaintEffect taint.Effect }])
      [])

/-- Go `strings.HasPrefix(s, pre)`: `s` is at least as long as `pre` and
starts with it. -/
def HasPrefix (s pre : String) : Bool :=
  decide (pre.data.length ≤ s.data.length) && decide (s.data.take pre.data.length = pre.data)

/-- Go `strings.TrimPrefix(s, pre)`: `s` without the leading `pre` when it has
it, and `s` otherwise. -/
def TrimPrefix (s pre : String) : String :=
  if HasPrefix s pre then ⟨s.data.drop pre.data.length⟩ else s

/-- The helper `pointer.String`: a pointer to a copy of the string. -/
def pointerString (s : String) : Option String := some s

/-- The function `NormalizeMachineVersion`. -/
def NormalizeMachineVersion (version : Option String) : Option String :=
  match version with
  | none => none
  | some v => pointerString (TrimPrefix v "v")

/-- The taint as the SDK holds it, element by element. -/
def sdkTaintOf (taint : Taint) : NodeTaint :=
  { Key := taint.Key, Value := taint.Value, Effect := convertToSdkTaintEffect taint.Effect }

end V1beta1

namespace Kube

/-! ## Time arithmetic -/

theorem Time.ext_ns {t u : Time} (h : t.ns = u.ns) : t = u := by
  cases t; cases u; simp_all

theorem Time.After_iff (t u : Time) : t.After u = true ↔ u.ns < t.ns := by
  simp [Time.After]

theorem Time.Sub_eq_clamp (t u : Time) :
    t.Sub u = max minDuration (min maxDuration (t.ns - u.ns)) := by
  simp only [Time.Sub, minDuration, maxDuration]
  split_ifs <;> omega

theorem Time.Sub_range (t u : Time) : minDuration ≤ t.Sub u ∧ t.Sub u ≤ maxDuration := by
  simp only [Time.Sub, minDuration, maxDuration]
  split_ifs <;> omega

/-- Saturation keeps the comparison with every limit below the largest
duration. -/
theorem Time.lt_Sub_iff (t u : Time) (m : Int) (hlo : minDuration ≤ m)
    (hhi : m < maxDuration) : m < t.Sub u ↔ m < t.ns - u.ns := by
  simp only [Time.Sub, minDuration, maxDuration] at *
  split_ifs <;> omega

theorem wrapInt64_range (x : Int) : minDuration ≤ wrapInt64 x ∧ wrapInt64 x ≤ maxDuration := by
  simp only [wrapInt64, minDuration, maxDuration]
  omega

/-- A limit computed as `time.Second * v` is a multiple of 512, so it is never
the largest duration. -/
theorem wrapInt64_Second_mul_lt (v : Int) : wrapInt64 (Second * v) < maxDuration := by
  simp only [wrapInt64, Second, maxDuration]
  omega

/-! ## The admission filter -/

theorem getEventAge_snd (event : Event) (clock : PassiveClock) :
    (getEventAge event clock).2 = effectiveTime event := by
  simp only [getEventAge, effectiveTime]
  by_cases h : event.LastTimestamp.ns < event.CreationTimestamp.ns
  · rw [if_pos ((Time.After_iff _ _).2 h)]
    exact Time.ext_ns (by simp; omega)
  · rw [if_neg (fun h1 => h ((Time.After_iff _ _).1 h1))]
    exact Time.ext_ns (by simp; omega)

theorem getEventAge_eq (event : Event) (clock : PassiveClock) :
    getEventAge event clock = (clock.Since (effectiveTime event), effectiveTime event) := by
  have h := getEventAge_snd event clock
  simp only [getEventAge] at *
  rw [h]

theorem isEventDiscarded_fst {σ : Type} (e : EventWatcher σ) (event : Event) (now : Time)
    (w : World σ) :
    (isEventDiscarded e event now w).1
      = decide (e.maxEventAgeSeconds < now.Sub (effectiveTime event)) := by
  simp only [isEventDiscarded, getEventAge_eq, PassiveClock.Since, RealClock]
  split_ifs <;> simp_all

theorem isEventDiscarded_admitted {σ : Type} (e : EventWatcher σ) (event : Event) (now : Time)
    (w : World σ) (h : (isEventDiscarded e event now w).1 = false) :
    isEventDiscarded e event now w = (false, w) := by
  simp only [isEventDiscarded] at *
  split_ifs at *
  simp_all

theorem isEventDiscarded_live {σ : Type} (e : EventWatcher σ) (event : Event) (now : Time)
    (w : World σ) (hage : e.maxEventAgeSeconds < now.Sub (effectiveTime event))
    (hlive : w.startUpTime.ns < (effectiveTime event).ns) :
    isEventDiscarded e event now w
      = (true,
          { w with
            log := w.log ++
              [discardedLogEntry e.maxEventAgeSeconds event (now.Sub (effectiveTime event))]
            metricsStore :=
              { w.metricsStore with
                EventsDiscarded := w.metricsStore.EventsDiscarded + 1 } }) := by
  simp only [isEventDiscarded, getEventAge_eq, PassiveClock.Since, RealClock]
  rw [if_pos hage, if_pos ((Time.After_iff _ _).2 hlive)]

theorem isEventDiscarded_backlog {σ : Type} (e : EventWatcher σ) (event : Event) (now : Time)
    (w : World σ) (hage : e.maxEventAgeSeconds < now.Sub (effectiveTime event))
    (hold : (effectiveTime event).ns ≤ w.startUpTime.ns) :
    isEventDiscarded e event now w = (true, w) := by
  simp only [isEventDiscarded, getEventAge_eq, PassiveClock.Since, RealClock]
  rw [if_pos hage, if_neg (fun h => absurd ((Time.After_iff _ _).1 h) (by omega))]

/-- C1: `getEventAge` returns the clock's duration since the later of
`creationTimestamp` and `lastTimestamp` together with that later time; the
time is `creationTimestamp` only when it is strictly after `lastTimestamp`,
and the duration is the difference `now - time` held in a `Duration`. -/
theorem getEventAge_later_timestamp (event : Event) (clock : PassiveClock) :
    getEventAge event clock = (clock.Since (effectiveTime event), effectiveTime event)
      ∧ effectiveTime event
          = (if event.LastTimestamp.ns < event.CreationTimestamp.ns
              then event.CreationTimestamp else event.LastTimestamp)
      ∧ clock.Since (effectiveTime event)
          = max minDuration (min maxDuration (clock.Now.ns - (effectiveTime event).ns)) := by
  refine ⟨getEventAge_eq event clock, ?_, Time.Sub_eq_clamp _ _⟩
  simp only [effectiveTime]
  split_ifs with h
  · exact Time.ext_ns (by simp; omega)
  · exact Time.ext_ns (by simp; omega)

/-- C2: `isEventDiscarded` answers true exactly when the age of the event,
the clock's duration since the later of its two timestamps, is strictly
greater than the maximum age; an age equal to the maximum is admitted.  For a
watcher built by `NewEventWatcher` the age in the comparison is the plain
difference `now - max(creationTimestamp, lastTimestamp)`. -/
theorem isEventDiscarded_iff_age_gt {σ : Type} (e : EventWatcher σ) (event : Event)
    (now : Time) (w : World σ) :
    ((isEventDiscarded e event now w).1 = true
        ↔ e.maxEventAgeSeconds < (RealClock now).Since (effectiveTime event))
      ∧ ((isEventDiscarded e event now w).1 = false
        ↔ (RealClock now).Since (effectiveTime event) ≤ e.maxEventAgeSeconds)
      ∧ (∀ (v : Int) (omitLookup : Bool),
          (isEventDiscarded (NewEventWatcher e.objectMetadataCache v omitLookup) event now w).1 = true
            ↔ wrapInt64 (Second * v) < now.ns - (effectiveTime event).ns) := by
  refine ⟨?_, ?_, ?_⟩
  · rw [isEventDiscarded_fst]
    simp [PassiveClock.Since, RealClock]
  · rw [isEventDiscarded_fst]
    simp [PassiveClock.Since, RealClock]
  · intro v omitLookup
    rw [isEventDiscarded_fst]
    simp only [NewEventWatcher, decide_eq_true_eq]
    exact Time.lt_Sub_iff _ _ _ (wrapInt64_range _).1 (wrapInt64_Second_mul_lt v)

/-- C3: two events with the same `creationTimestamp` and `lastTimestamp` get
the same age, the same time used and the same decision, whatever their
`eventTime`; an event with neither timestamp set is aged from the zero time,
and a watcher built by `NewEventWatcher` discards it at every clock reading
that is at least the largest duration after the zero time. -/
theorem eventTime_not_in_age_decision {σ : Type} (e : EventWatcher σ) (event event' : Event)
    (clock : PassiveClock) (now : Time) (w : World σ)
    (hC : event.CreationTimestamp = event'.CreationTimestamp)
    (hL : event.LastTimestamp = event'.LastTimestamp) :
    getEventAge event clock = getEventAge event' clock
      ∧ (isEventDiscarded e event now w).1 = (isEventDiscarded e event' now w).1
      ∧ (event.CreationTimestamp = Time.zero → event.LastTimestamp = Time.zero →
          getEventAge event (RealClock now) = ((RealClock now).Since Time.zero, Time.zero)
          ∧ (maxDuration ≤ now.ns → ∀ (v : Int) (omitLookup : Bool),
              (isEventDiscarded (NewEventWatcher e.objectMetadataCache v omitLookup)
                  event now w).1 = true
              ∧ (onEvent (NewEventWatcher e.objectMetadataCache v omitLookup)
                  event now w).handled = w.handled)) := by
  have hT : effectiveTime event = effectiveTime event' := by
    simp only [effectiveTime, hC, hL]
  refine ⟨?_, ?_, ?_⟩
  · rw [getEventAge_eq, getEventAge_eq, hT]
  · rw [isEventDiscarded_fst, isEventDiscarded_fst, hT]
  · intro hCz hLz
    have hZ : effectiveTime event = Time.zero := by
      simp only [effectiveTime, hCz, hLz, Time.zero, max_self]
    refine ⟨by rw [getEventAge_eq, hZ], ?_⟩
    intro hnow v omitLookup
    have hd : (isEventDiscarded (NewEventWatcher e.objectMetadataCache v omitLookup)
        event now w).1 = true := by
      rw [isEventDiscarded_fst, decide_eq_true_eq, hZ]
      have h1 := wrapInt64_Second_mul_lt v
      have h2 : now.Sub Time.zero = maxDuration := by
        simp only [Time.Sub, Time.zero, minDuration, maxDuration] at *
        split_ifs <;> omega
      simp only [NewEventWatcher, h2]
      exact h1
    refine ⟨hd, ?_⟩
    have hw : (isEventDiscarded (NewEventWatcher e.objectMetadataCache v omitLookup)
        event now w).2.handled = w.handled := by
      simp only [isEventDiscarded]
      split_ifs <;> rfl
    simp only [onEvent, hd, if_true]
    exact hw

/-- C3 at the inputs of the test: an event with only an `eventTime` and an
event with no timestamp at all, at `testTime`, with a limit of 300 seconds. -/
theorem eventTime_not_in_age_decision_witness :
    getEventAge eventTimeOnlyEvent (RealClock testTime)
        = getEventAge ({} : Event) (RealClock testTime)
      ∧ (isEventDiscarded (newMockEventWatcher 300) eventTimeOnlyEvent testTime testWorld).1
        = (isEventDiscarded (newMockEventWatcher 300) ({} : Event) testTime testWorld).1
      ∧ getEventAge eventTimeOnlyEvent (RealClock testTime)
        = ((RealClock testTime).Since Time.zero, Time.zero)
      ∧ (isEventDiscarded (NewEventWatcher mockObjectMetadataProvider 300 false)
          eventTimeOnlyEvent testTime testWorld).1 = true
      ∧ (onEvent (NewEventWatcher mockObjectMetadataProvider 300 false)
          eventTimeOnlyEvent testTime testWorld).handled = [] := by
  have h := eventTime_not_in_age_decision (newMockEventWatcher 300) eventTimeOnlyEvent
    ({} : Event) (RealClock testTime) testTime testWorld rfl rfl
  have h3 := h.2.2 rfl rfl
  have h4 := h3.2 (by decide) 300 false
  exact ⟨h.1, h.2.1, h3.1, h4.1, h4.2⟩

/-- C4: for an event older than the maximum, `isEventDiscarded` returns true;
when the time used is after the boot instant it appends exactly the
warning-level "Event discarded" entry and adds one to the discarded counter,
and when the time used is at or before the boot instant it leaves the world,
log and counters included, as it was; for an admitted event it returns false
and leaves the world as it was. -/
theorem isEventDiscarded_warns_only_after_startup {σ : Type} (e : EventWatcher σ)
    (event : Event) (now : Time) (w : World σ) :
    (e.maxEventAgeSeconds < (RealClock now).Since (effectiveTime event) →
        w.startUpTime.ns < (effectiveTime event).ns →
        (isEventDiscarded e event now w).1 = true
        ∧ (∃ entry : LogEntry,
            (isEventDiscarded e event now w).2.log = w.log ++ [entry]
            ∧ entry.level = Level.warn
            ∧ entry.msg = "Event discarded as being older than maxEventAgeSeconds: %v")
        ∧ (isEventDiscarded e event now w).2.metricsStore.EventsDiscarded
            = w.metricsStore.EventsDiscarded + 1
        ∧ (isEventDiscarded e event now w).2.metricsStore.EventsProcessed
            = w.metricsStore.EventsProcessed
        ∧ (isEventDiscarded e event now w).2.handled = w.handled)
      ∧ (e.maxEventAgeSeconds < (RealClock now).Since (effectiveTime event) →
        (effectiveTime event).ns ≤ w.startUpTime.ns →
        isEventDiscarded e event now w = (true, w))
      ∧ ((RealClock now).Since (effectiveTime event) ≤ e.maxEventAgeSeconds →
        isEventDiscarded e event now w = (false, w)) := by
  refine ⟨?_, ?_, ?_⟩
  · intro hage hlive
    rw [isEventDiscarded_live e event now w hage hlive]
    exact ⟨rfl, ⟨_, rfl, rfl, rfl⟩, rfl, rfl, rfl⟩
  · intro hage hold
    exact isEventDiscarded_backlog e event now w hage hold
  · intro hle
    apply isEventDiscarded_admitted
    rw [isEventDiscarded_fst]
    simp only [PassiveClock.Since, RealClock] at hle
    simpa using hle

/-- C4 at the inputs of the tests: a stale event created after boot, a stale
event last seen before boot, and a fresh event. -/
theorem isEventDiscarded_warns_only_after_startup_witness :
    ((isEventDiscarded (newMockEventWatcher 300) liveStaleEvent testTime testWorld).1 = true
        ∧ (isEventDiscarded (newMockEventWatcher 300) liveStaleEvent testTime
            testWorld).2.metricsStore.EventsDiscarded = 1)
      ∧ isEventDiscarded (newMockEventWatcher 300) backlogEvent testTime testWorld
          = (true, testWorld)
      ∧ isEventDiscarded (newMockEventWatcher 300) freshEvent testTime testWorld
          = (false, testWorld) := by
  have h := isEventDiscarded_warns_only_after_startup (newMockEventWatcher 300)
  have h1 := (h liveStaleEvent testTime testWorld).1 (by decide) (by decide)
  have h2 := (h backlogEvent testTime testWorld).2.1 (by decide) (by decide)
  have h3 := (h freshEvent testTime testWorld).2.2 (by decide)
  exact ⟨⟨h1.1, h1.2.2.1⟩, h2, h3⟩

/-! ## Enrichment and forwarding -/

theorem onEvent_discarded {σ : Type} (e : EventWatcher σ) (event : Event) (now : Time)
    (w : World σ) (h : (isEventDiscarded e event now w).1 = true) :
    onEvent e event now w = (isEventDiscarded e event now w).2 := by
  simp only [onEvent, h, if_true]

theorem isEventDiscarded_frame {σ : Type} (e : EventWatcher σ) (event : Event) (now : Time)
    (w : World σ) :
    (isEventDiscarded e event now w).2.handled = w.handled
      ∧ (isEventDiscarded e event now w).2.metricsStore.EventsProcessed
          = w.metricsStore.EventsProcessed
      ∧ (isEventDiscarded e event now w).2.lookups = w.lookups
      ∧ (isEventDiscarded e event now w).2.cache = w.cache := by
  simp only [isEventDiscarded]
  split_ifs <;> exact ⟨rfl, rfl, rfl, rfl⟩

theorem onEvent_omitLookup {σ : Type} (e : EventWatcher σ) (event : Event) (now : Time)
    (w : World σ) (hadm : (isEventDiscarded e event now w).1 = false)
    (homit : e.omitLookup = true) :
    onEvent e event now w = callHandler (receivedWorld event w) (enrichedEvent event {}) := by
  have hw := isEventDiscarded_admitted e event now w hadm
  simp only [onEvent, hw, homit, if_true]
  rfl

theorem onEvent_lookup_ok {σ : Type} (e : EventWatcher σ) (event : Event) (now : Time)
    (w : World σ) (hadm : (isEventDiscarded e event now w).1 = false)
    (homit : e.omitLookup = false)
    (hok : (e.objectMetadataCache w.cache event.InvolvedObject).1.2 = none) :
    onEvent e event now w
      = callHandler
          { receivedWorld event w with
            lookups := w.lookups ++ [event.InvolvedObject]
            cache := (e.objectMetadataCache w.cache event.InvolvedObject).2 }
          (enrichedEvent event (e.objectMetadataCache w.cache event.InvolvedObject).1.1) := by
  have hw := isEventDiscarded_admitted e event now w hadm
  simp only [onEvent, hw, homit]
  simp only [hok]
  rfl

theorem onEvent_lookup_err {σ : Type} (e : EventWatcher σ) (event : Event) (now : Time)
    (w : World σ) (err : LookupError) (hadm : (isEventDiscarded e event now w).1 = false)
    (homit : e.omitLookup = false)
    (herr : (e.objectMetadataCache w.cache event.InvolvedObject).1.2 = some err) :
    onEvent e event now w
      = callHandler
          { receivedWorld event w with
            log := w.log ++ [receivedLogEntry event] ++ [lookupErrorLogEntry err]
            lookups := w.lookups ++ [event.InvolvedObject]
            cache := (e.objectMetadataCache w.cache event.InvolvedObject).2 }
          (enrichedEvent event { Deleted := err.IsNotFound }) := by
  have hw := isEventDiscarded_admitted e event now w hadm
  simp only [onEvent, hw, homit]
  simp only [herr]
  cases hnf : err.IsNotFound <;> simp [hnf] <;> rfl

theorem onEvent_admitted_handled {σ : Type} (e : EventWatcher σ) (event : Event) (now : Time)
    (w : World σ) (hadm : (isEventDiscarded e event now w).1 = false) :
    (∃ ev : EnhancedEvent, (onEvent e event now w).handled = w.handled ++ [ev])
      ∧ (onEvent e event now w).metricsStore.EventsProcessed
          = w.metricsStore.EventsProcessed + 1 := by
  cases homit : e.omitLookup
  · cases herr : (e.objectMetadataCache w.cache event.InvolvedObject).1.2 with
    | none =>
      rw [onEvent_lookup_ok e event now w hadm homit herr]
      exact ⟨⟨_, rfl⟩, rfl⟩
    | some err =>
      rw [onEvent_lookup_err e event now w err hadm homit herr]
      exact ⟨⟨_, rfl⟩, rfl⟩
  · rw [onEvent_omitLookup e event now w hadm homit]
    exact ⟨⟨_, rfl⟩, rfl⟩

/-- C5: one call of `onEvent` calls the handler exactly once and adds one to
the processed counter when `isEventDiscarded` answers false, and calls the
handler not at all and leaves the processed counter as it was when it answers
true; no call adds more than one handler invocation. -/
theorem onEvent_forwards_iff_admitted {σ : Type} (e : EventWatcher σ) (event : Event)
    (now : Time) (w : World σ) :
    ((isEventDiscarded e event now w).1 = false →
        (∃ ev : EnhancedEvent, (onEvent e event now w).handled = w.handled ++ [ev])
        ∧ (onEvent e event now w).metricsStore.EventsProcessed
            = w.metricsStore.EventsProcessed + 1)
      ∧ ((isEventDiscarded e event now w).1 = true →
        (onEvent e event now w).handled = w.handled
        ∧ (onEvent e event now w).metricsStore.EventsProcessed
            = w.metricsStore.EventsProcessed)
      ∧ (onEvent e event now w).handled.length ≤ w.handled.length + 1 := by
  have hdis : (isEventDiscarded e event now w).1 = true →
      (onEvent e event now w).handled = w.handled
      ∧ (onEvent e event now w).metricsStore.EventsProcessed
          = w.metricsStore.EventsProcessed := by
    intro h
    rw [onEvent_discarded e event now w h]
    exact ⟨(isEventDiscarded_frame e event now w).1, (isEventDiscarded_frame e event now w).2.1⟩
  refine ⟨onEvent_admitted_handled e event now w, hdis, ?_⟩
  cases h : (isEventDiscarded e event now w).1
  · obtain ⟨⟨ev, hev⟩, _⟩ := onEvent_admitted_handled e event now w h
    rw [hev]
    simp
  · rw [(hdis h).1]
    omega

/-- C5 at the inputs of the tests: a fresh event is handed on once, a stale
one is not. -/
theorem onEvent_forwards_iff_admitted_witness :
    ((onEvent (newMockEventWatcher 300) freshEvent testTime testWorld).handled.length = 1
        ∧ (onEvent (newMockEventWatcher 300) freshEvent testTime
            testWorld).metricsStore.EventsProcessed = 1)
      ∧ ((onEvent (newMockEventWatcher 300) liveStaleEvent testTime testWorld).handled = []
        ∧ (onEvent (newMockEventWatcher 300) liveStaleEvent testTime
            testWorld).metricsStore.EventsProcessed = 0) := by
  have h1 := (onEvent_forwards_iff_admitted (newMockEventWatcher 300) freshEvent testTime
    testWorld).1 (by decide)
  have h2 := (onEvent_forwards_iff_admitted (newMockEventWatcher 300) liveStaleEvent testTime
    testWorld).2.1 (by decide)
  refine ⟨⟨?_, h1.2⟩, h2⟩
  obtain ⟨ev, hev⟩ := h1.1
  rw [hev]
  rfl

/-- C6: with `omitLookup` set, the enhanced event handed on for an admitted
event carries the raw involved-object reference, no labels, annotations or
owner references and `deleted = false`; the metadata provider is not called
and its state is untouched, and the handler invocations are the same for
every provider and every provider state. -/
theorem onEvent_omitLookup_copies_reference {σ : Type} (e : EventWatcher σ) (event : Event)
    (now : Time) (w : World σ) (hadm : (isEventDiscarded e event now w).1 = false)
    (homit : e.omitLookup = true) :
    (∃ ev : EnhancedEvent,
        (onEvent e event now w).handled = w.handled ++ [ev]
        ∧ ev.InvolvedObject.toObjectReference = event.InvolvedObject
        ∧ ev.InvolvedObject.Labels = none
        ∧ ev.InvolvedObject.Annotations = none
        ∧ ev.InvolvedObject.OwnerReferences = none
        ∧ ev.InvolvedObject.Deleted = false)
      ∧ (onEvent e event now w).lookups = w.lookups
      ∧ (onEvent e event now w).cache = w.cache
      ∧ (∀ (τ : Type) (provider : ObjectMetadataProvider τ) (cache : τ),
          (onEvent
              { objectMetadataCache := provider, omitLookup := true,
                maxEventAgeSeconds := e.maxEventAgeSeconds }
              event now
              { startUpTime := w.startUpTime, metricsStore := w.metricsStore, log := w.log,
                handled := w.handled, lookups := w.lookups, cache := cache }).handled
            = (onEvent e event now w).handled) := by
  rw [onEvent_omitLookup e event now w hadm homit]
  refine ⟨⟨_, rfl, rfl, rfl, rfl, rfl, rfl⟩, rfl, rfl, ?_⟩
  intro τ provider cache
  rw [onEvent_omitLookup _ event now _ _ rfl]
  · rfl
  · rw [isEventDiscarded_fst] at hadm ⊢
    exact hadm

/-- C6 at a fresh event with the mock provider. -/
theorem onEvent_omitLookup_copies_reference_witness :
    (onEvent { newMockEventWatcher 300 with omitLookup := true } freshEvent testTime
        testWorld).lookups = []
      ∧ (onEvent { newMockEventWatcher 300 with omitLookup := true } freshEvent testTime
        testWorld).cache = false := by
  have h := onEvent_omitLookup_copies_reference
    { newMockEventWatcher 300 with omitLookup := true } freshEvent testTime testWorld
    (by decide) rfl
  exact ⟨h.2.1, h.2.2.1⟩

/-- C7: with `omitLookup` unset, when the metadata provider returns metadata
`m` and no error for an admitted event, the handler is called once with an
enhanced event carrying the labels, annotations, owner references and deleted
flag of `m` and the raw involved-object reference of the event. -/
theorem onEvent_lookup_success_copies_metadata {σ : Type} (e : EventWatcher σ)
    (event : Event) (now : Time) (w : World σ) (m : ObjectMetadata) (cache : σ)
    (hadm : (isEventDiscarded e event now w).1 = false)
    (homit : e.omitLookup = false)
    (hok : e.objectMetadataCache w.cache event.InvolvedObject = ((m, none), cache)) :
    ∃ ev : EnhancedEvent,
      (onEvent e event now w).handled = w.handled ++ [ev]
      ∧ ev.InvolvedObject.Labels = m.Labels
      ∧ ev.InvolvedObject.Annotations = m.Annotations
      ∧ ev.InvolvedObject.OwnerReferences = m.OwnerReferences
      ∧ ev.InvolvedObject.Deleted = m.Deleted
      ∧ ev.InvolvedObject.toObjectReference = event.InvolvedObject := by
  rw [onEvent_lookup_ok e event now w hadm homit (by rw [hok])]
  refine ⟨_, rfl, ?_, ?_, ?_, ?_, rfl⟩ <;> simp only [enrichedEvent, hok]

/-- C7 at the input of `TestOnEvent_WithObjectMetadata`. -/
theorem onEvent_lookup_success_copies_metadata_witness :
    ∃ ev : EnhancedEvent,
      (onEvent (newMockEventWatcher 300) freshEvent testTime testWorld).handled = [] ++ [ev]
      ∧ ev.InvolvedObject.Labels = some [("test", "test")]
      ∧ ev.InvolvedObject.Annotations = some [("test", "test")]
      ∧ ev.InvolvedObject.OwnerReferences = testMetadata.OwnerReferences
      ∧ ev.InvolvedObject.Deleted = false
      ∧ ev.InvolvedObject.toObjectReference = { UID := "test", Name := "test-1" } :=
  onEvent_lookup_success_copies_metadata (newMockEventWatcher 300) freshEvent testTime
    testWorld testMetadata false (by decide) rfl rfl

/-- C8: with `omitLookup` unset, when the metadata provider reports "not found"
for an admitted event, the handler is still called once, with an enhanced
event that has `deleted = true`, nil labels, annotations and owner references
and the raw involved-object reference of the event. -/
theorem onEvent_not_found_marks_deleted {σ : Type} (e : EventWatcher σ) (event : Event)
    (now : Time) (w : World σ) (err : LookupError)
    (hadm : (isEventDiscarded e event now w).1 = false)
    (homit : e.omitLookup = false)
    (herr : (e.objectMetadataCache w.cache event.InvolvedObject).1.2 = some err)
    (hnf : err.IsNotFound = true) :
    ∃ ev : EnhancedEvent,
      (onEvent e event now w).handled = w.handled ++ [ev]
      ∧ ev.InvolvedObject.Deleted = true
      ∧ ev.InvolvedObject.Labels = none
      ∧ ev.InvolvedObject.Annotations = none
      ∧ ev.InvolvedObject.OwnerReferences = none
      ∧ ev.InvolvedObject.toObjectReference = event.InvolvedObject := by
  rw [onEvent_lookup_err e event now w err hadm homit herr]
  exact ⟨_, rfl, hnf, rfl, rfl, rfl, rfl⟩

/-- C8 at the input of `TestOnEvent_DeletedObjects`. -/
theorem onEvent_not_found_marks_deleted_witness :
    ∃ ev : EnhancedEvent,
      (onEvent (newMockEventWatcher 300) freshEvent testTime
          { testWorld with cache := true }).handled = [] ++ [ev]
      ∧ ev.InvolvedObject.Deleted = true
      ∧ ev.InvolvedObject.Labels = none
      ∧ ev.InvolvedObject.Annotations = none
      ∧ ev.InvolvedObject.OwnerReferences = none
      ∧ ev.InvolvedObject.toObjectReference = { UID := "test", Name := "test-1" } :=
  onEvent_not_found_marks_deleted (newMockEventWatcher 300) freshEvent testTime
    { testWorld with cache := true } { IsNotFound := true } (by decide) rfl rfl rfl

/-- C9: with `omitLookup` unset, when the metadata provider returns an error
other than "not found" for an admitted event, `onEvent` still calls the
handler exactly once, with an enhanced event that carries the raw
involved-object reference, no labels, annotations or owner references and
`deleted = false`; the processed counter still goes up by one and the error
leaves no trace but one error-level log entry. -/
theorem onEvent_lookup_failure_keeps_event {σ : Type} (e : EventWatcher σ) (event : Event)
    (now : Time) (w : World σ) (err : LookupError)
    (hadm : (isEventDiscarded e event now w).1 = false)
    (homit : e.omitLookup = false)
    (herr : (e.objectMetadataCache w.cache event.InvolvedObject).1.2 = some err)
    (hnf : err.IsNotFound = false) :
    (∃ ev : EnhancedEvent,
        (onEvent e event now w).handled = w.handled ++ [ev]
        ∧ ev.InvolvedObject.toObjectReference = event.InvolvedObject
        ∧ ev.InvolvedObject.Labels = none
        ∧ ev.InvolvedObject.Annotations = none
        ∧ ev.InvolvedObject.OwnerReferences = none
        ∧ ev.InvolvedObject.Deleted = false)
      ∧ (onEvent e event now w).metricsStore.EventsProcessed
          = w.metricsStore.EventsProcessed + 1
      ∧ (onEvent e event now w).metricsStore.EventsDiscarded = w.metricsStore.EventsDiscarded
      ∧ (∃ entry : LogEntry,
          (onEvent e event now w).log = w.log ++ [receivedLogEntry event] ++ [entry]
          ∧ entry.level = Level.error
          ∧ entry.msg = "Failed to get object metadata") := by
  rw [onEvent_lookup_err e event now w err hadm homit herr]
  refine ⟨⟨_, rfl, rfl, rfl, rfl, rfl, hnf⟩, rfl, rfl, ⟨_, rfl, rfl, ?_⟩⟩
  simp [lookupErrorLogEntry, hnf]

/-- C9 with a provider whose every lookup fails with a server error. -/
theorem onEvent_lookup_failure_keeps_event_witness :
    (onEvent
        { objectMetadataCache :=
            fun (s : Unit) _ => (({}, some { IsNotFound := false, Message := "timeout" }), s)
          maxEventAgeSeconds := 300 * Second }
        freshEvent testTime { startUpTime := testStartup, cache := () }
      ).metricsStore.EventsProcessed = 1 := by
  have h := onEvent_lookup_failure_keeps_event
    { objectMetadataCache :=
        fun (s : Unit) _ => (({}, some { IsNotFound := false, Message := "timeout" }), s)
      maxEventAgeSeconds := 300 * Second }
    freshEvent testTime { startUpTime := testStartup, cache := () }
    { IsNotFound := false, Message := "timeout" } (by decide) rfl rfl rfl
  exact h.2.1

/-- C10 fails as stated: with a maximum age of zero an event stamped one second
after the clock reading is admitted and handed on, though its effective time
is not the clock reading. -/
theorem zero_max_age_admits_future_event :
    (newMockEventWatcher 0).maxEventAgeSeconds = 0
      ∧ (isEventDiscarded (newMockEventWatcher 0) futureEvent testTime testWorld).1 = false
      ∧ (onEvent (newMockEventWatcher 0) futureEvent testTime testWorld).handled.length = 1
      ∧ max futureEvent.CreationTimestamp.ns futureEvent.LastTimestamp.ns ≠ testTime.ns := by
  decide

/-- C10, amended: a watcher with a maximum age of zero admits an event exactly
when the later of its `creationTimestamp` and `lastTimestamp` is the clock
reading or after it. -/
theorem zero_max_age_admits_iff_not_before_now {σ : Type} (e : EventWatcher σ)
    (event : Event) (now : Time) (w : World σ) (hzero : e.maxEventAgeSeconds = 0) :
    (isEventDiscarded e event now w).1 = false
      ↔ now.ns ≤ max event.CreationTimestamp.ns event.LastTimestamp.ns := by
  rw [isEventDiscarded_fst, hzero, decide_eq_false_iff_not,
    Time.lt_Sub_iff _ _ 0 (by decide) (by decide)]
  simp only [effectiveTime]
  omega

/-- C10, amended, at an event stamped exactly at the clock reading and at one
stamped a second later. -/
theorem zero_max_age_admits_iff_not_before_now_witness :
    (isEventDiscarded (newMockEventWatcher 0) { LastTimestamp := testTime } testTime
        testWorld).1 = false
      ∧ (isEventDiscarded (newMockEventWatcher 0) futureEvent testTime testWorld).1 = false :=
  ⟨(zero_max_age_admits_iff_not_before_now (newMockEventWatcher 0)
      { LastTimestamp := testTime } testTime testWorld (by decide)).2 (by decide),
   (zero_max_age_admits_iff_not_before_now (newMockEventWatcher 0)
      futureEvent testTime testWorld (by decide)).2 (by decide)⟩

/-! ## Limits from large configured values -/

/-- While `time.Second * v` stays inside an `int64`, an event whose age is at
most `v` seconds is admitted. -/
theorem NewEventWatcher_admits_within_limit {σ : Type} (p : ObjectMetadataProvider σ)
    (omitLookup : Bool) (v : Int) (event : Event) (now : Time) (w : World σ)
    (hlo : -9223372036 ≤ v) (hhi : v ≤ 9223372036)
    (hage : now.ns - (effectiveTime event).ns ≤ Second * v) :
    (isEventDiscarded (NewEventWatcher p v omitLookup) event now w).1 = false := by
  rw [isEventDiscarded_fst, decide_eq_false_iff_not]
  have h := Time.lt_Sub_iff now (effectiveTime event) (wrapInt64 (Second * v))
    (wrapInt64_range _).1 (wrapInt64_Second_mul_lt v)
  simp only [NewEventWatcher, h]
  simp only [wrapInt64, Second] at *
  omega

/-- C11 fails on the code: for `MaxEventAgeSeconds = 9223372037` the product
`time.Second * v` wraps to a negative limit, and an event of age zero is
discarded, while the smaller value 9223372036 admits the same event. -/
theorem large_max_age_wraps_and_discards :
    (NewEventWatcher mockObjectMetadataProvider overflowingMaxAge false).maxEventAgeSeconds
        = -9223372036709551616
      ∧ (getEventAge currentEvent (RealClock testTime)).1 = 0
      ∧ (isEventDiscarded (NewEventWatcher mockObjectMetadataProvider overflowingMaxAge false)
          currentEvent testTime testWorld).1 = true
      ∧ (isEventDiscarded (NewEventWatcher mockObjectMetadataProvider 9223372036 false)
          currentEvent testTime testWorld).1 = false
      ∧ (onEvent (NewEventWatcher mockObjectMetadataProvider overflowingMaxAge false)
          currentEvent testTime testWorld).handled = [] := by
  decide

/-! ## Logging of failed lookups -/

/-- C12 fails as stated: when the mock provider reports "not found" for a
fresh event, `onEvent` writes an error-level entry, "Object not found, likely
deleted", after the debug entry for the received event. -/
theorem not_found_is_logged_at_error_level :
    (isEventDiscarded (newMockEventWatcher 300) freshEvent testTime
        { testWorld with cache := true }).1 = false
      ∧ (mockObjectMetadataProvider true freshEvent.InvolvedObject).1.2
        = some { IsNotFound := true }
      ∧ (onEvent (newMockEventWatcher 300) freshEvent testTime
          { testWorld with cache := true }).log
        = [ receivedLogEntry freshEvent,
            { level := Level.error
              fields := [("error", LogValue.err { IsNotFound := true })]
              msg := "Object not found, likely deleted" } ] := by
  decide

/-- C12, amended: for an admitted event whose lookup reports "not found",
`onEvent` marks the enhanced event `deleted = true` and writes exactly one
more log entry after the one for the received event, at error level, with the
message "Object not found, likely deleted". -/
theorem onEvent_not_found_logs_error_entry {σ : Type} (e : EventWatcher σ) (event : Event)
    (now : Time) (w : World σ) (err : LookupError)
    (hadm : (isEventDiscarded e event now w).1 = false)
    (homit : e.omitLookup = false)
    (herr : (e.objectMetadataCache w.cache event.InvolvedObject).1.2 = some err)
    (hnf : err.IsNotFound = true) :
    (∃ ev : EnhancedEvent,
        (onEvent e event now w).handled = w.handled ++ [ev]
        ∧ ev.InvolvedObject.Deleted = true)
      ∧ (∃ entry : LogEntry,
          (onEvent e event now w).log = w.log ++ [receivedLogEntry event] ++ [entry]
          ∧ entry.level = Level.error
          ∧ entry.fields = [("error", LogValue.err err)]
          ∧ entry.msg = "Object not found, likely deleted") := by
  rw [onEvent_lookup_err e event now w err hadm homit herr]
  refine ⟨⟨_, rfl, hnf⟩, ⟨_, rfl, rfl, rfl, ?_⟩⟩
  simp [lookupErrorLogEntry, hnf]

/-- C12, amended, at the input of `TestOnEvent_DeletedObjects`. -/
theorem onEvent_not_found_logs_error_entry_witness :
    ∃ entry : LogEntry,
      (onEvent (newMockEventWatcher 300) freshEvent testTime
          { testWorld with cache := true }).log = [] ++ [receivedLogEntry freshEvent] ++ [entry]
      ∧ entry.level = Level.error
      ∧ entry.fields = [("error", LogValue.err { IsNotFound := true })]
      ∧ entry.msg = "Object not found, likely deleted" :=
  (onEvent_not_found_logs_error_entry (newMockEventWatcher 300) freshEvent testTime
    { testWorld with cache := true } { IsNotFound := true } (by decide) rfl rfl rfl).2

/-! ## The embedded event -/

/-- C14: on every branch of enrichment the handler of an admitted event gets
an enhanced event whose embedded event is the input event with no managed
fields and every other field as in the input; the input, which `onEvent` only
reads, is the value the deep copy was taken from. -/
theorem onEvent_embeds_event_without_managed_fields {σ : Type} (e : EventWatcher σ)
    (event : Event) (now : Time) (w : World σ)
    (hadm : (isEventDiscarded e event now w).1 = false) :
    ∃ ev : EnhancedEvent,
      (onEvent e event now w).handled = w.handled ++ [ev]
      ∧ ev.Event = { event with ManagedFields := none }
      ∧ ev.Event.ManagedFields = none
      ∧ { ev.Event with ManagedFields := event.ManagedFields } = event
      ∧ event.DeepCopy = event := by
  cases homit : e.omitLookup
  · cases herr : (e.objectMetadataCache w.cache event.InvolvedObject).1.2 with
    | none =>
      rw [onEvent_lookup_ok e event now w hadm homit herr]
      exact ⟨_, rfl, rfl, rfl, rfl, rfl⟩
    | some err =>
      rw [onEvent_lookup_err e event now w err hadm homit herr]
      exact ⟨_, rfl, rfl, rfl, rfl, rfl⟩
  · rw [onEvent_omitLookup e event now w hadm homit]
    exact ⟨_, rfl, rfl, rfl, rfl, rfl⟩

/-- C14 at an event that carries managed fields, on the lookup branch. -/
theorem onEvent_embeds_event_without_managed_fields_witness :
    managedEvent.ManagedFields ≠ none
      ∧ ∃ ev : EnhancedEvent,
        (onEvent (newMockEventWatcher 300) managedEvent testTime testWorld).handled
          = [] ++ [ev]
        ∧ ev.Event = { managedEvent with ManagedFields := none }
        ∧ ev.Event.ManagedFields = none
        ∧ { ev.Event with ManagedFields := managedEvent.ManagedFields } = managedEvent
        ∧ managedEvent.DeepCopy = managedEvent :=
  ⟨by decide,
    onEvent_embeds_event_without_managed_fields (newMockEventWatcher 300) managedEvent
      testTime testWorld (by decide)⟩


/-! ## The metadata cache -/

theorem find?_eq_none_iff_not_mem_keys (c : MetadataCache) (k : ObjectIdentity) :
    c.entries.find? (fun entry => decide (entry.1 = k)) = none ↔ k ∉ c.keys := by
  simp only [MetadataCache.keys, List.find?_eq_none, decide_eq_true_eq, List.mem_map,
    not_exists, not_and]

theorem store_capacity (c : MetadataCache) (k : ObjectIdentity) (m : ObjectMetadata) :
    (c.store k m).capacity = c.capacity ∧ (c.store k m).calls = c.calls := by
  simp [MetadataCache.store]

theorem store_keys (c : MetadataCache) (k : ObjectIdentity) (m : ObjectMetadata)
    (hlen : c.entries.length ≤ c.capacity) :
    (c.store k m).keys = (k :: c.keys).take c.capacity := by
  simp only [MetadataCache.store, MetadataCache.keys, List.length_cons]
  split_ifs with h
  · have hcap : c.capacity = c.entries.length := by omega
    rw [List.dropLast_eq_take, List.map_take, hcap]
    simp
  · rw [List.take_of_length_le]
    · simp
    · simp; omega

theorem store_length (c : MetadataCache) (k : ObjectIdentity) (m : ObjectMetadata)
    (hlen : c.entries.length ≤ c.capacity) :
    (c.store k m).entries.length ≤ c.capacity := by
  simp only [MetadataCache.store, List.length_cons]
  split_ifs with h
  · simp; omega
  · simp; omega


theorem GetObjectMetadata_miss_calls (lookup : Lookup) (c : MetadataCache)
    (reference : ObjectReference) (hmiss : identityOf reference ∉ c.keys) :
    (GetObjectMetadata lookup c reference).2.calls = c.calls ++ [reference] := by
  have hnone := (find?_eq_none_iff_not_mem_keys c (identityOf reference)).2 hmiss
  simp only [GetObjectMetadata, hnone]
  cases hl : lookup reference with
  | ok m => simp [MetadataCache.store]
  | error err =>
    cases hnf : err.IsNotFound <;> simp [hnf, MetadataCache.store]

theorem GetObjectMetadata_hit (lookup : Lookup) (c : MetadataCache)
    (reference : ObjectReference) (hhit : identityOf reference ∈ c.keys) :
    (GetObjectMetadata lookup c reference).2.calls = c.calls
      ∧ (GetObjectMetadata lookup c reference).1.2 = none := by
  cases hf : c.entries.find? (fun entry => decide (entry.1 = identityOf reference)) with
  | none => exact absurd hhit ((find?_eq_none_iff_not_mem_keys c _).1 hf)
  | some hit => simp [GetObjectMetadata, hf]

theorem GetObjectMetadata_miss_keys (lookup : Lookup) (c : MetadataCache)
    (reference : ObjectReference) (hmiss : identityOf reference ∉ c.keys)
    (hlen : c.entries.length ≤ c.capacity)
    (hfound : ∀ err, lookup reference = Except.error err → err.IsNotFound = true) :
    (GetObjectMetadata lookup c reference).2.keys
        = (identityOf reference :: c.keys).take c.capacity
      ∧ (GetObjectMetadata lookup c reference).2.capacity = c.capacity := by
  have hnone := (find?_eq_none_iff_not_mem_keys c (identityOf reference)).2 hmiss
  simp only [GetObjectMetadata, hnone]
  cases hl : lookup reference with
  | ok m =>
    exact ⟨store_keys { c with calls := c.calls ++ [reference] } _ m hlen,
      (store_capacity _ _ _).1⟩
  | error err =>
    have hnf := hfound err hl
    simp only [hnf, if_true]
    exact ⟨store_keys { c with calls := c.calls ++ [reference] } _ _ hlen,
      (store_capacity _ _ _).1⟩

theorem GetObjectMetadata_bounded (lookup : Lookup) (c : MetadataCache)
    (reference : ObjectReference) (hlen : c.entries.length ≤ c.capacity) :
    (GetObjectMetadata lookup c reference).2.entries.length
        ≤ (GetObjectMetadata lookup c reference).2.capacity
      ∧ (GetObjectMetadata lookup c reference).2.capacity = c.capacity := by
  cases hf : c.entries.find? (fun entry => decide (entry.1 = identityOf reference)) with
  | some hit =>
    simp only [GetObjectMetadata, hf, List.length_cons, and_true]
    have hmem : hit ∈ c.entries := List.mem_of_find?_eq_some hf
    have hp : hit.1 = identityOf reference := by
      have := List.find?_some hf
      simpa using this
    have hlt : (c.entries.filter (fun entry => decide (entry.1 ≠ identityOf reference))).length
        < c.entries.length := by
      apply List.length_filter_lt_length_iff_exists.2
      exact ⟨hit, hmem, by simp [hp]⟩
    omega
  | none =>
    simp only [GetObjectMetadata, hf]
    cases hl : lookup reference with
    | ok m =>
      exact ⟨by rw [(store_capacity _ _ _).1]; exact store_length _ _ _ hlen,
        (store_capacity _ _ _).1⟩
    | error err =>
      cases hnf : err.IsNotFound
      · simp only [hnf, Bool.false_eq_true, if_false, and_true]
        exact hlen
      · simp only [hnf, if_true]
        exact ⟨by rw [(store_capacity _ _ _).1]; exact store_length _ _ _ hlen,
          (store_capacity _ _ _).1⟩

theorem getAll_bounded (lookup : Lookup) (references : List ObjectReference) :
    ∀ c : MetadataCache, c.entries.length ≤ c.capacity →
      (getAll lookup c references).entries.length ≤ c.capacity
        ∧ (getAll lookup c references).capacity = c.capacity := by
  induction references with
  | nil => intro c h; exact ⟨h, rfl⟩
  | cons r rs ih =>
    intro c h
    have hstep := GetObjectMetadata_bounded lookup c r h
    have := ih (GetObjectMetadata lookup c r).2 hstep.1
    simp only [getAll, List.foldl_cons] at *
    rw [hstep.2] at this
    exact this


theorem take_append_take {α : Type} (a b : List α) (n : Nat) :
    (a ++ b.take n).take n = (a ++ b).take n := by
  rw [List.take_append_eq_append_take, List.take_append_eq_append_take, List.take_take]
  congr 2
  omega

theorem getAll_distinct (lookup : Lookup) (references : List ObjectReference) :
    ∀ c : MetadataCache, c.entries.length ≤ c.capacity →
      (references.map identityOf).Nodup →
      (∀ r ∈ references, identityOf r ∉ c.keys) →
      (∀ r ∈ references, ∀ err, lookup r = Except.error err → err.IsNotFound = true) →
      (getAll lookup c references).keys
          = ((references.map identityOf).reverse ++ c.keys).take c.capacity
        ∧ (getAll lookup c references).calls = c.calls ++ references := by
  induction references with
  | nil =>
    intro c hlen _ _ _
    simp only [getAll, List.foldl_nil, List.map_nil, List.reverse_nil, List.nil_append,
      List.append_nil, and_true]
    rw [List.take_of_length_le]
    simpa [MetadataCache.keys] using hlen
  | cons r rs ih =>
    intro c hlen hnodup hfresh hfound
    have hr : identityOf r ∉ c.keys := hfresh r (List.mem_cons_self _ _)
    have hkeys := GetObjectMetadata_miss_keys lookup c r hr hlen
      (hfound r (List.mem_cons_self _ _))
    have hcalls := GetObjectMetadata_miss_calls lookup c r hr
    have hbound := GetObjectMetadata_bounded lookup c r hlen
    rw [List.map_cons, List.nodup_cons] at hnodup
    have hfresh1 : ∀ r1 ∈ rs, identityOf r1 ∉ (GetObjectMetadata lookup c r).2.keys := by
      intro r1 hr1 hmem
      rw [hkeys.1] at hmem
      have hmem1 := List.mem_of_mem_take hmem
      rcases List.mem_cons.1 hmem1 with h | h
      · exact hnodup.1 (h ▸ List.mem_map_of_mem identityOf hr1)
      · exact hfresh r1 (List.mem_cons_of_mem _ hr1) h
    have hrec := ih (GetObjectMetadata lookup c r).2 hbound.1 hnodup.2 hfresh1
      (fun r1 hr1 => hfound r1 (List.mem_cons_of_mem _ hr1))
    simp only [getAll, List.foldl_cons] at *
    rw [hrec.1, hrec.2, hkeys.1, hkeys.2, hcalls, take_append_take]
    simp


theorem GetObjectMetadata_hit_keys (lookup : Lookup) (c : MetadataCache)
    (reference : ObjectReference) (hhit : identityOf reference ∈ c.keys) :
    (GetObjectMetadata lookup c reference).2.keys
      = identityOf reference :: c.keys.filter (fun k => decide (k ≠ identityOf reference)) := by
  cases hf : c.entries.find? (fun entry => decide (entry.1 = identityOf reference)) with
  | none => exact absurd hhit ((find?_eq_none_iff_not_mem_keys c _).1 hf)
  | some hit =>
    have hp : hit.1 = identityOf reference := by
      have := List.find?_some hf
      simpa using this
    simp only [GetObjectMetadata, hf, MetadataCache.keys, List.map_cons, hp, List.filter_map]
    rfl

/-- C13: the metadata cache never holds more than its capacity `N`; a miss on
a full cache evicts exactly the least recently accessed identity, and a hit
makes the identity the most recently accessed; after `N+1` distinct
identities were looked up on an empty cache, with one external lookup each,
the cache holds the last `N`, a further call for the first performs a fresh
external lookup and a further call for any of the others performs none. -/
theorem metadata_cache_bounded_lru (lookup : Lookup) (N : Nat) :
    (∀ references : List ObjectReference,
        (getAll lookup (NewObjectMetadataProvider N) references).entries.length ≤ N)
      ∧ (∀ (c : MetadataCache) (reference : ObjectReference),
          c.entries.length = c.capacity → identityOf reference ∉ c.keys →
          (∀ err, lookup reference = Except.error err → err.IsNotFound = true) →
          (GetObjectMetadata lookup c reference).2.keys
            = (identityOf reference :: c.keys).dropLast)
      ∧ (∀ (c : MetadataCache) (reference : ObjectReference),
          identityOf reference ∈ c.keys →
          (GetObjectMetadata lookup c reference).2.keys
            = identityOf reference
                :: c.keys.filter (fun k => decide (k ≠ identityOf reference)))
      ∧ (∀ (first : ObjectReference) (rest : List ObjectReference),
          rest.length = N → ((first :: rest).map identityOf).Nodup →
          (∀ r ∈ first :: rest, ∀ err, lookup r = Except.error err → err.IsNotFound = true) →
          (getAll lookup (NewObjectMetadataProvider N) (first :: rest)).keys
              = (rest.map identityOf).reverse
            ∧ (getAll lookup (NewObjectMetadataProvider N) (first :: rest)).calls
              = first :: rest
            ∧ (GetObjectMetadata lookup
                (getAll lookup (NewObjectMetadataProvider N) (first :: rest)) first).2.calls
              = (first :: rest) ++ [first]
            ∧ (∀ r ∈ rest,
                (GetObjectMetadata lookup
                    (getAll lookup (NewObjectMetadataProvider N) (first :: rest)) r).2.calls
                  = first :: rest
                ∧ (GetObjectMetadata lookup
                    (getAll lookup (NewObjectMetadataProvider N) (first :: rest)) r).1.2
                  = none)) := by
  refine ⟨?_, ?_, ?_, ?_⟩
  · intro references
    exact (getAll_bounded lookup references (NewObjectMetadataProvider N)
      (Nat.zero_le _)).1
  · intro c reference hfull hmiss hfound
    rw [(GetObjectMetadata_miss_keys lookup c reference hmiss (le_of_eq hfull) hfound).1,
      List.dropLast_eq_take]
    simp [MetadataCache.keys, hfull]
  · intro c reference hhit
    exact GetObjectMetadata_hit_keys lookup c reference hhit
  · intro first rest hlen hnodup hfound
    have hall := getAll_distinct lookup (first :: rest) (NewObjectMetadataProvider N)
      (Nat.zero_le _) hnodup (fun r _ h => by simp [MetadataCache.keys,
        NewObjectMetadataProvider] at h) hfound
    have hkeys : (getAll lookup (NewObjectMetadataProvider N) (first :: rest)).keys
        = (rest.map identityOf).reverse := by
      rw [hall.1]
      simp only [NewObjectMetadataProvider, MetadataCache.keys, List.map_nil, List.append_nil,
        List.map_cons, List.reverse_cons]
      rw [List.take_append_of_le_length (by simp [hlen]), List.take_of_length_le (by simp [hlen])]
    have hcalls : (getAll lookup (NewObjectMetadataProvider N) (first :: rest)).calls
        = first :: rest := by
      rw [hall.2]
      simp [NewObjectMetadataProvider]
    rw [List.map_cons, List.nodup_cons] at hnodup
    refine ⟨hkeys, hcalls, ?_, ?_⟩
    · rw [GetObjectMetadata_miss_calls lookup _ first, hcalls]
      rw [hkeys, List.mem_reverse]
      exact hnodup.1
    · intro r hr
      have hhit := GetObjectMetadata_hit lookup
        (getAll lookup (NewObjectMetadataProvider N) (first :: rest)) r
        (by rw [hkeys, List.mem_reverse]; exact List.mem_map_of_mem identityOf hr)
      rw [hcalls] at hhit
      exact hhit

/-- C13 for a cache of capacity two: after `a`, `b`, `c` the cache holds `c`
and `b`, a call for `a` looks it up again and calls for `b` and `c` do not;
when `a` is read again before `c` arrives, it is `b` that is evicted. -/
theorem metadata_cache_bounded_lru_witness :
    ((getAll sampleLookup (NewObjectMetadataProvider 2) [refA, refB, refC]).keys
          = [identityOf refC, identityOf refB]
        ∧ (getAll sampleLookup (NewObjectMetadataProvider 2) [refA, refB, refC]).calls
          = [refA, refB, refC]
        ∧ (GetObjectMetadata sampleLookup
            (getAll sampleLookup (NewObjectMetadataProvider 2) [refA, refB, refC]) refA).2.calls
          = [refA, refB, refC] ++ [refA])
      ∧ (getAll sampleLookup (NewObjectMetadataProvider 2) [refA, refB, refA, refC]).keys
          = [identityOf refC, identityOf refA] := by
  have h := (metadata_cache_bounded_lru sampleLookup 2).2.2.2 refA [refB, refC] rfl
    (by decide) (fun r _ err herr => by simp [sampleLookup] at herr)
  exact ⟨⟨h.1, h.2.1, h.2.2.1⟩, by decide⟩

end Kube

namespace V1beta1

/-! ## Version strings and taints -/

theorem TrimPrefix_v_append (t : String) : TrimPrefix ("v" ++ t) "v" = t := by
  have hd : ("v" ++ t).data = 'v' :: t.data := by
    rw [String.data_append]
    rfl
  have hv : ("v" : String).data = ['v'] := rfl
  simp [TrimPrefix, HasPrefix, hd, hv]

theorem TrimPrefix_v_of_not_leading (s : String) (h : ∀ t : String, s ≠ "v" ++ t) :
    TrimPrefix s "v" = s := by
  have hv : ("v" : String).data = ['v'] := rfl
  have hno : HasPrefix s "v" = false := by
    cases hs : s.data with
    | nil => simp [HasPrefix, hs, hv]
    | cons c cs =>
      by_cases hc : c = 'v'
      · exfalso
        apply h ⟨cs⟩
        apply String.ext
        rw [String.data_append, hs, hc]
        rfl
      · simp [HasPrefix, hs, hv, hc]
  simp [TrimPrefix, hno]

/-- C15: `NormalizeMachineVersion` returns nil for nil; for a version that
starts with "v" it returns the version without that one leading "v", and for
every other version it returns the version as it is. -/
theorem NormalizeMachineVersion_trims_one_v :
    NormalizeMachineVersion none = none
      ∧ (∀ t : String, NormalizeMachineVersion (some ("v" ++ t)) = some t)
      ∧ (∀ s : String, (∀ t : String, s ≠ "v" ++ t) →
          NormalizeMachineVersion (some s) = some s)
      ∧ NormalizeMachineVersion (some "v1.27.3") = some "1.27.3"
      ∧ NormalizeMachineVersion (some "vv1.27.3") = some "v1.27.3"
      ∧ NormalizeMachineVersion (some "latest") = some "latest"
      ∧ NormalizeMachineVersion (some "1.X.Y-gke.N") = some "1.X.Y-gke.N"
      ∧ NormalizeMachineVersion (some "-") = some "-"
      ∧ NormalizeMachineVersion (some "") = some "" := by
  refine ⟨rfl, ?_, ?_, by decide, by decide, by decide, by decide, by decide, by decide⟩
  · intro t
    simp only [NormalizeMachineVersion, pointerString, TrimPrefix_v_append]
  · intro s h
    simp only [NormalizeMachineVersion, pointerString, TrimPrefix_v_of_not_leading s h]

/-- C15 at "1.27" with and without the leading "v". -/
theorem NormalizeMachineVersion_trims_one_v_witness :
    NormalizeMachineVersion (some ("v" ++ "1.27")) = some "1.27"
      ∧ NormalizeMachineVersion (some "1.27") = some "1.27" :=
  ⟨NormalizeMachineVersion_trims_one_v.2.1 "1.27",
    NormalizeMachineVersion_trims_one_v.2.2.1 "1.27" (fun t h => by
      have hd := congrArg String.data h
      have hv : ("v" : String).data = ['v'] := rfl
      have h1 : ("1.27" : String).data = ['1', '.', '2', '7'] := rfl
      rw [String.data_append, hv, h1] at hd
      simp at hd)⟩

theorem ConvertToSdkTaint_foldl (ts : List Taint) (acc : List NodeTaint) :
    ts.foldl
        (fun res taint =>
          res ++ [{ Key := taint.Key
                    Value := taint.Value
                    Effect := convertToSdkTaintEffect taint.Effect }])
        acc
      = acc ++ ts.map sdkTaintOf := by
  induction ts generalizing acc with
  | nil => simp
  | cons t rest ih =>
    rw [List.foldl_cons, ih]
    simp [sdkTaintOf]

/-- C16: `ConvertToSdkTaint` returns nil for nil; for a non-nil list, empty or
not, it returns a non-nil list of the same length whose i-th element has the
key and value of the i-th taint and the effect `NO_SCHEDULE`, `NO_EXECUTE` or
`PREFER_NO_SCHEDULE` for "NoSchedule", "NoExecute", "PreferNoSchedule" and
`EFFECT_UNSPECIFIED` for every other effect string. -/
theorem ConvertToSdkTaint_elementwise :
    ConvertToSdkTaint none = none
      ∧ ConvertToSdkTaint (some []) = some []
      ∧ (∀ ts : List Taint, ∃ res : List NodeTaint,
          ConvertToSdkTaint (some ts) = some res
          ∧ res.length = ts.length
          ∧ ∀ (i : Nat) (taint : Taint), ts[i]? = some taint →
              ∃ out : NodeTaint, res[i]? = some out
                ∧ out.Key = taint.Key ∧ out.Value = taint.Value
                ∧ out.Effect = convertToSdkTaintEffect taint.Effect)
      ∧ convertToSdkTaintEffect "NoSchedule" = NodeTaint_Effect.NO_SCHEDULE
      ∧ convertToSdkTaintEffect "NoExecute" = NodeTaint_Effect.NO_EXECUTE
      ∧ convertToSdkTaintEffect "PreferNoSchedule" = NodeTaint_Effect.PREFER_NO_SCHEDULE
      ∧ (∀ effect : String, effect ≠ "NoSchedule" → effect ≠ "NoExecute" →
          effect ≠ "PreferNoSchedule" →
          convertToSdkTaintEffect effect = NodeTaint_Effect.EFFECT_UNSPECIFIED) := by
  refine ⟨rfl, rfl, ?_, by decide, by decide, by decide, ?_⟩
  · intro ts
    refine ⟨ts.map sdkTaintOf, ?_, by simp, ?_⟩
    · simp only [ConvertToSdkTaint, ConvertToSdkTaint_foldl, List.nil_append]
    · intro i taint hi
      exact ⟨sdkTaintOf taint, by simp [List.getElem?_map, hi], rfl, rfl, rfl⟩
  · intro effect h1 h2 h3
    simp [convertToSdkTaintEffect, h1, h2, h3]

/-- C16 at a list with one taint of each known effect and one unknown effect. -/
theorem ConvertToSdkTaint_elementwise_witness :
    ConvertToSdkTaint
        (some [ { Effect := "NoSchedule", Key := "k1", Value := "v1" },
                { Effect := "NoExecute", Key := "k2", Value := "v2" },
                { Effect := "PreferNoSchedule", Key := "k3", Value := "v3" },
                { Effect := "noschedule", Key := "k4", Value := "v4" } ])
      = some [ { Key := "k1", Value := "v1", Effect := NodeTaint_Effect.NO_SCHEDULE },
               { Key := "k2", Value := "v2", Effect := NodeTaint_Effect.NO_EXECUTE },
               { Key := "k3", Value := "v3", Effect := NodeTaint_Effect.PREFER_NO_SCHEDULE },
               { Key := "k4", Value := "v4", Effect := NodeTaint_Effect.EFFECT_UNSPECIFIED } ]
      ∧ convertToSdkTaintEffect "noschedule" = NodeTaint_Effect.EFFECT_UNSPECIFIED :=
  ⟨by decide,
    ConvertToSdkTaint_elementwise.2.2.2.2.2.2 "noschedule" (by decide) (by decide)
      (by decide)⟩

end V1beta1
